import Mathlib

/-!
Verification of the tgrep core against its specification.

The Rust sources are shallowly embedded: a Rust `str` becomes its UTF-8 byte
sequence (`List Nat`), byte-index slicing follows Rust semantics (a slice at a
non-char-boundary index panics, modelled as `none`), and the external
collaborators named by the spec (regex engine, glob engine) are parameters.
-/

set_option maxRecDepth 10000

namespace Tgrep

/-- A Rust `str` modelled as its UTF-8 byte sequence. -/
abbrev Str := List Nat

/-- Standard UTF-8 encoding of one Unicode scalar value (1 to 4 bytes). -/
def utf8Bytes (c : Char) : List Nat :=
  let n := c.toNat
  if n < 0x80 then [n]
  else if n < 0x800 then [0xC0 + n / 64, 0x80 + n % 64]
  else if n < 0x10000 then [0xE0 + n / 4096, 0x80 + (n / 64) % 64, 0x80 + n % 64]
  else [0xF0 + n / 262144, 0x80 + (n / 4096) % 64, 0x80 + (n / 64) % 64, 0x80 + n % 64]

/-- The UTF-8 bytes of a Lean string literal, for writing concrete inputs. -/
def strBytes (s : String) : Str := s.data.flatMap utf8Bytes

/-- All bytes are ASCII (below 0x80). -/
def asciiOnly (s : Str) : Bool := s.all (· < 0x80)

/-- Rust `str::is_char_boundary` on the byte model: true at 0 and at the
length, and at any in-range byte that is not a UTF-8 continuation byte. -/
def isCharBoundary (s : Str) (i : Nat) : Bool :=
  if i = 0 then true
  else
    match s.get? i with
    | none => i = s.length
    | some b => !(0x80 ≤ b && b < 0xC0)

/-- Rust `str` slicing `s[a..b]` and `str::get(a..b)`: defined exactly when
both ends are in range and on char boundaries. `none` models the panic of
`s[a..b]` (for `get` it is the `None` return). -/
def sliceOpt (s : Str) (a b : Nat) : Option Str :=
  if a ≤ b ∧ b ≤ s.length ∧ isCharBoundary s a ∧ isCharBoundary s b then
    some ((s.drop a).take (b - a))
  else none

/-- Index of the first byte satisfying `p`, counting from `i`. -/
def findIdxAux (p : Nat → Bool) : Str → Nat → Option Nat
  | [], _ => none
  | b :: rest, i => if p b then some i else findIdxAux p rest (i + 1)

/-- `memrchr(b, s)`: byte offset of the last occurrence of `b` (the first
occurrence in the reversed buffer). -/
def memrchr (b : Nat) (s : Str) : Option Nat :=
  (findIdxAux (· == b) s.reverse 0).map (fun j => s.length - 1 - j)

/-- Offset of the first occurrence of `n` in the remaining haystack, counting
from `i`: the scan that `memmem` performs. -/
def firstOccurAux (n : Str) : Str → Nat → Option Nat
  | [], i => if n.isPrefixOf [] then some i else none
  | b :: rest, i => if n.isPrefixOf (b :: rest) then some i else firstOccurAux n rest (i + 1)

/-- Byte offset of the first occurrence of `n` in `h` (the `memmem` result). -/
def firstOccur? (h n : Str) : Option Nat := firstOccurAux n h 0

/-- `find_in_string` from src/utils/patterns.rs: a `memmem` search with the
source's two extra guards (needle longer than haystack; offset past the end). -/
def findInString (haystack needle : Str) : Option Nat :=
  if needle.length > haystack.length then none
  else
    match firstOccur? haystack needle with
    | none => none
    | some dist => if dist ≥ haystack.length then none else some dist

/-- The compiled pattern shapes of src/utils/patterns.rs (`PatternType`). The
`Prefix` variant of the source is named `PrefixOf` here; the glob fallback
keeps the pattern text, the glob engine itself being an external collaborator
passed to `patternMatches` as a function. -/
inductive PatternType
  | Any
  | Exact (s : Str)
  | PrefixOf (s : Str)
  | Suffix (s : Str)
  | StarSuffix (s : Str)
  | PrefixStar (s : Str)
  | DStarTextDStarText (first second : Str)
  | Glob (g : Str)
deriving DecidableEq

/-- The character class `[:]` of the source's helper regexes is
`[^\]\[*?]`: no `]`, `[`, `*`, `?` bytes. -/
def noGlob (s : Str) : Bool := s.all (fun b => !(b == 93 || b == 91 || b == 42 || b == 63))

/-- Anchored regex `^\*\*/\*([:]*)$` of `Pattern::new` (the `**/*foo` case). -/
def starSuffixCap (p : Str) : Option Str :=
  match p with
  | 42 :: 42 :: 47 :: 42 :: rest => if noGlob rest then some rest else none
  | _ => none

/-- Anchored regex `^\*\*(/[:]*)$` of `Pattern::new` (the `**/foo` case). -/
def suffixCap (p : Str) : Option Str :=
  match p with
  | 42 :: 42 :: 47 :: rest => if noGlob rest then some (47 :: rest) else none
  | _ => none

/-- Anchored regex `^\*\*/([:]*)\*$` of `Pattern::new` (the `**/foo*` case). -/
def prefixStarCap (p : Str) : Option Str :=
  match p with
  | 42 :: 42 :: 47 :: rest =>
      if rest.getLast? = some 42 ∧ noGlob rest.dropLast then some rest.dropLast else none
  | _ => none

/-- Anchored regex `^(/[:]*)\*$` of `Pattern::new` (the `/foo*` case). -/
def prefixCap (p : Str) : Option Str :=
  match p with
  | 47 :: rest =>
      if rest.getLast? = some 42 ∧ noGlob rest.dropLast then some (47 :: rest.dropLast) else none
  | _ => none

/-- Anchored regex `^\*\*/([:]*/)\*\*(/[:]*)$` of `Pattern::new` (the
`**/foo/**/bar` case). The first capture cannot contain `*`, so it runs up to
the first `*` after the leading `**/` and must end with `/`. -/
def dstarCap (p : Str) : Option (Str × Str) :=
  match p with
  | 42 :: 42 :: 47 :: rest =>
      match rest.findIdx? (· == 42) with
      | none => none
      | some j =>
          let c1 := rest.take j
          let c2 := rest.drop (j + 2)
          if (rest.drop j).take 2 = [42, 42] ∧ c1.getLast? = some 47 ∧ noGlob c1 ∧
              c2.head? = some 47 ∧ noGlob c2 then
            some (c1, c2)
          else none
  | _ => none

/-- Anchored regex `^(/[:]*)$` of `Pattern::new` (the `/foo` case). -/
def exactCap (p : Str) : Option Str :=
  match p with
  | 47 :: rest => if noGlob rest then some (47 :: rest) else none
  | _ => none

/-- `Pattern::new` from src/utils/patterns.rs: classification of a normalized
pattern, first applicable case wins. Each helper regex of the source is
translated to the equivalent direct test above. Glob compilation is the
external glob engine's concern and is modelled as always succeeding. -/
def patternNew (p : Str) : PatternType :=
  if p = strBytes "*" ∨ p = strBytes "**/*" then PatternType.Any
  else
    match starSuffixCap p with
    | some c => PatternType.StarSuffix c
    | none =>
      match suffixCap p with
      | some c => PatternType.Suffix c
      | none =>
        match prefixStarCap p with
        | some c => PatternType.PrefixStar c
        | none =>
          match prefixCap p with
          | some c => PatternType.PrefixOf c
          | none =>
            match dstarCap p with
            | some (a, b) => PatternType.DStarTextDStarText a b
            | none =>
              match exactCap p with
              | some c => PatternType.Exact c
              | none => PatternType.Glob p

/-- `Pattern::matches` from src/utils/patterns.rs. Slicing follows Rust `str`
semantics via `sliceOpt`; `none` is a panic. `glob` is the external glob
engine used by the fallback arm. -/
def patternMatches (glob : Str → Str → Bool) : PatternType → Str → Option Bool
  | PatternType.Any, _ => some true
  | PatternType.Exact s, path => some (decide (path = s))
  | PatternType.PrefixOf s, path =>
      if path.length > s.length then
        (sliceOpt path 0 s.length).map (fun t => decide (t = s))
      else some false
  | PatternType.Suffix s, path =>
      some (decide (path.length ≥ s.length) &&
        isCharBoundary path (path.length - s.length) &&
        decide ((path.drop (path.length - s.length)) = s))
  | PatternType.PrefixStar s, path =>
      match memrchr 47 path with
      | some pos =>
          (sliceOpt path (pos + 1) path.length).bind (fun rest =>
            if rest.length > s.length then
              (sliceOpt rest 0 s.length).map (fun t => decide (t = s))
            else some false)
      | none => some false
  | PatternType.StarSuffix s, path =>
      if path.length > s.length then
        if path.getD (path.length - s.length - 1) 0 = 47 then some false
        else (sliceOpt path (path.length - s.length) path.length).map (fun t => decide (t = s))
      else some false
  | PatternType.DStarTextDStarText f sec, path =>
      if path.length > f.length + sec.length then
        match findInString path f with
        | some pos =>
            (sliceOpt path (pos + f.length) path.length).bind (fun rest =>
              if rest.length > sec.length then
                (sliceOpt rest (rest.length - sec.length) rest.length).map
                  (fun t => decide (t = sec))
              else some false)
        | none => some false
      else some false
  | PatternType.Glob g, path => some (glob g path)

/-- `PatternSet` from src/utils/patterns.rs: a root plus the `dir_only` and
`all` pattern vectors. -/
structure PatternSet where
  root : Str
  dirOnly : List PatternType
  allPats : List PatternType
deriving DecidableEq

/-- `PatternSet::new`: the root is stored without trailing separators. -/
def patternSetNew (root : Str) : PatternSet :=
  { root := (root.reverse.dropWhile (· == 47)).reverse, dirOnly := [], allPats := [] }

/-- `PatternSet::push`. -/
def psPush (ps : PatternSet) (p : PatternType) (dirOnly : Bool) : PatternSet :=
  if dirOnly then { ps with dirOnly := ps.dirOnly ++ [p] }
  else { ps with allPats := ps.allPats ++ [p] }

/-- Rust `Iterator::any` over fallible tests: short-circuits on the first
`true`; a panic (`none`) propagates. -/
def anyOpt : List α → (α → Option Bool) → Option Bool
  | [], _ => some false
  | x :: xs, f => (f x).bind (fun b => if b then some true else anyOpt xs f)

/-- `PatternSet::matches`: strip the root prefix (a fallible byte-index
comparison), test `dir_only` first when `is_dir`, then `all`. -/
def PatternSet.matchesPath (glob : Str → Str → Bool) (ps : PatternSet) (path : Str)
    (isDir : Bool) : Option Bool :=
  let truncatedOpt : Option Str :=
    if path.length ≥ ps.root.length then
      (sliceOpt path 0 ps.root.length).map
        (fun t => if t = ps.root then path.drop ps.root.length else path)
    else some path
  truncatedOpt.bind (fun truncated =>
    (if isDir then anyOpt ps.dirOnly (fun p => patternMatches glob p truncated)
     else some false).bind
      (fun m => if m then some true
       else anyOpt ps.allPats (fun p => patternMatches glob p truncated)))

/-- `Patterns` from src/utils/patterns.rs: whitelist and blacklist layers. -/
structure Patterns where
  whitelist : List PatternSet
  blacklist : List PatternSet
deriving DecidableEq

/-- ASCII whitespace bytes (the values Rust's `trim_start`/`trim_end` remove
for inputs below 0x80, which covers every pattern in scope). -/
def isWs (b : Nat) : Bool := b == 32 || b == 9 || b == 10 || b == 11 || b == 12 || b == 13

/-- `str::replace("\\ ", " ")`: left-to-right, non-overlapping. -/
def replaceBackslashSpace : Str → Str
  | [] => []
  | 92 :: 32 :: rest => 32 :: replaceBackslashSpace rest
  | b :: rest => b :: replaceBackslashSpace rest

/-- `str::trim_end_matches("/*")` applied after reversing: strips repeated
`/*` suffixes. -/
def stripLeadingStarSlash : Str → Str
  | 42 :: 47 :: rest => stripLeadingStarSlash rest
  | s => s

/-- `Patterns::parse` from src/utils/patterns.rs: gitignore line
normalization. Returns the compiled shape with the whitelist and
directory-only flags, or `none` for blank lines and comments. -/
def parseLine (lineRaw : Str) : Option (PatternType × Bool × Bool) :=
  let p := lineRaw.dropWhile isWs
  let p := if [92, 32].isSuffixOf p then p
    else
      let p := (p.reverse.dropWhile isWs).reverse
      if p = [92] then [32] else p
  if p.head? = some 35 ∨ p = [] then none
  else
    let p := replaceBackslashSpace p
    let whitelist := p.head? = some 33
    let p := if whitelist then p.drop 1 else p
    let p := if [92, 35].isPrefixOf p ∨ [92, 33].isPrefixOf p then p.drop 1 else p
    let p := if [46, 47].isPrefixOf p then p.drop 1 else p
    let rootOnly := p.head? = some 47 ∨
      (p.contains 47 ∧ p.getLast? ≠ some 47 ∧ ¬ [42, 42, 47].isPrefixOf p ∧
        firstOccur? p [47, 42, 42, 47] = none)
    let dirOnly := p.getLast? = some 47 ∨ [47, 42].isSuffixOf p
    let p := (p.reverse.dropWhile (· == 47)).reverse
    let p := (stripLeadingStarSlash p.reverse).reverse
    let p := if rootOnly then 47 :: p.dropWhile (· == 47)
      else if ¬ [42, 42, 47].isPrefixOf p then 42 :: 42 :: 47 :: p
      else p
    some (patternNew p, whitelist, dirOnly)

/-- `Vec::dedup` tail: removes elements equal to the previous kept one. -/
def dedupAdjAux [DecidableEq α] (prev : α) : List α → List α
  | [] => []
  | b :: rest => if b = prev then dedupAdjAux prev rest else b :: dedupAdjAux b rest

/-- `Vec::dedup`: removes consecutive duplicates. -/
def dedupAdj [DecidableEq α] : List α → List α
  | [] => []
  | a :: rest => a :: dedupAdjAux a rest

/-- `Patterns::new` from src/utils/patterns.rs: parse every line into the
root's whitelist or blacklist `PatternSet` (pattern-compile failures are
logged and skipped in the source; the modelled compiler is total). -/
def patternsNew (root : Str) (strs : List Str) : Patterns :=
  let step := fun (acc : PatternSet × PatternSet) (s : Str) =>
    match parseLine s with
    | some (pt, true, dirOnly) => (psPush acc.1 pt dirOnly, acc.2)
    | some (pt, false, dirOnly) => (acc.1, psPush acc.2 pt dirOnly)
    | none => acc
  let wb := strs.foldl step (patternSetNew root, patternSetNew root)
  { whitelist := dedupAdj [wb.1], blacklist := dedupAdj [wb.2] }

/-- `Patterns::is_excluded`: any whitelist hit re-includes, else any blacklist
hit excludes. -/
def Patterns.isExcluded (glob : Str → Str → Bool) (ps : Patterns) (path : Str)
    (isDir : Bool) : Option Bool :=
  (anyOpt ps.whitelist (fun s => s.matchesPath glob path isDir)).bind
    (fun w => if w then some false
     else anyOpt ps.blacklist (fun s => s.matchesPath glob path isDir))

/-- A glob engine instance for tests whose patterns never reach the glob
fallback arm. -/
def noGlobEngine : Str → Str → Bool := fun _ _ => false

/-- `Match` from src/utils/matcher.rs: a half-open byte range. The source's
field `end` is named `stop` (`end` is reserved in Lean). -/
structure Match where
  start : Nat
  stop : Nat
deriving DecidableEq

/-- `MatcherOptions` from src/utils/matcher.rs. -/
inductive MatcherOptions
  | Fuzzy
  | Exact (max : Nat)

/-- A matcher is the closure type of src/utils/matcher.rs. -/
abbrev Matcher := Str → MatcherOptions → Option (List Match)

/-- `usize::MAX`. -/
def usizeMax : Nat := 2 ^ 64 - 1

/-- Rust `Option::xor`. -/
def oxor : Option α → Option α → Option α
  | some a, none => some a
  | none, some b => some b
  | _, _ => none

/-- The matcher closure built in src/main.rs around the external regex engine
(`shortest_match`, `find_iter` with byte offsets) and the invert flag, applied
through `Option::xor`. In `Exact(max)` the source pushes each found match and
breaks once `i + 1 == max`, so `max = 0` never breaks. -/
def mkMatcher (shortestMatch : Str → Option Nat) (findIter : Str → List Match)
    (invert : Bool) : Matcher :=
  fun line opts =>
    let invertOption : Option (List Match) :=
      if invert then some [⟨0, line.length⟩] else none
    match opts with
    | MatcherOptions.Fuzzy =>
        oxor ((shortestMatch line).map (fun pos => [⟨0, pos⟩])) invertOption
    | MatcherOptions.Exact max =>
        let found := findIter line
        let ms := if max = 0 then found else found.take max
        oxor (if ms = [] then none else some ms) invertOption

/-- The regex engine instantiated to a single-literal-byte pattern:
`shortest_match` returns the end offset of the first occurrence. -/
def byteShortestMatch (b : Nat) (s : Str) : Option Nat :=
  (s.findIdx? (· == b)).map (· + 1)

/-- The regex engine instantiated to a single-literal-byte pattern:
`find_iter` returns every (one-byte) occurrence in order. -/
def byteFindIter (b : Nat) (s : Str) : List Match :=
  (List.range s.length).filterMap
    (fun i => if s.getD i 0 == b then some ⟨i, i + 1⟩ else none)

/-- Outcome of a reader's `lines()` call: a line stream, an error return, or a
panic (`Zero::lines` panics in src/utils/lines.rs). -/
inductive LinesResult
  | ok (lines : List Str)
  | err
  | panic
deriving DecidableEq

/-- A reader of the `LinesReader` contract (src/utils/lines.rs): `map()`
yields the whole contents or fails (`none` models the default
`bail!("not supported")` of the trait and any mapping error), and `lines()`
yields one of the three outcomes above. -/
structure Reader where
  mapResult : Option Str
  linesResult : LinesResult

/-- The `Zero` reader (src/utils/lines.rs): `map()` is `Ok("")`, `lines()`
panics with "not supported". -/
def zeroReader : Reader := { mapResult := some [], linesResult := LinesResult.panic }

/-- A reader whose `map()` is unsupported — the `LinesReader for PathBuf`
buffered fallback and the `Stdin` reader, which keep the trait's default
`map()`. -/
def unmappedReader (lines : List Str) : Reader :=
  { mapResult := none, linesResult := LinesResult.ok lines }

/-- A `Mapped` reader (src/utils/mapped.rs): `map()` returns the whole
mapping, `lines()` iterates it. -/
def mappedReader (contents : Str) (lines : List Str) : Reader :=
  { mapResult := some contents, linesResult := LinesResult.ok lines }

/-- `DisplayContext` from src/utils/display.rs. -/
structure DisplayContext where
  lno : Nat
  line : Str
  needle : List Match
  lnoSep : Str
deriving DecidableEq

/-- `DisplayContext::new`: the line-number separator defaults to ":". -/
def ctxNew (lno : Nat) (line : Str) (needle : List Match) : DisplayContext :=
  { lno := lno, line := line, needle := needle, lnoSep := strBytes ":" }

/-- `fuzzy_grep` from src/utils/grep.rs: `reader.map().ok().and_then(|map|
matcher(map, Fuzzy).and(Some(())))`. -/
def fuzzyGrep (reader : Reader) (matcher : Matcher) : Option Unit :=
  reader.mapResult.bind (fun m => (matcher m MatcherOptions.Fuzzy).bind (fun _ => some ()))

/-- Result of `generic_grep`: the contexts passed to `on_match` in order, and
the final `(total, matches)` passed to `on_end`; `panicked` when the reader's
`lines()` panics. -/
inductive GrepResult
  | panicked
  | finished (matchCalls : List DisplayContext) (total : Nat) (matchCount : Nat)
deriving DecidableEq

/-- The line loop of `generic_grep`: count every line, call the matcher with
`Exact(usize::MAX)`, collect each match's context, stop when `on_match`
returns true. -/
def scanLines (matcher : Matcher) (stop : DisplayContext → Bool) :
    List Str → Nat → Nat → (List DisplayContext × Nat × Nat)
  | [], total, mcount => ([], total, mcount)
  | line :: rest, total, mcount =>
      let total := total + 1
      match matcher line (MatcherOptions.Exact usizeMax) with
      | some needle =>
          let mcount := mcount + 1
          let ctx := ctxNew total line needle
          if stop ctx then ([ctx], total, mcount)
          else
            let r := scanLines matcher stop rest total mcount
            (ctx :: r.1, r.2)
      | none => scanLines matcher stop rest total mcount

/-- `generic_grep` from src/utils/grep.rs: short-circuit to `on_end(0, 0)`
when `fuzzy_grep` is `None`, otherwise iterate `lines()` (an `Err` from
`lines()` is logged and falls through to `on_end(0, 0)`). -/
def genericGrep (stop : DisplayContext → Bool) (reader : Reader) (matcher : Matcher) :
    GrepResult :=
  if (fuzzyGrep reader matcher).isNone then GrepResult.finished [] 0 0
  else
    match reader.linesResult with
    | LinesResult.panic => GrepResult.panicked
    | LinesResult.err => GrepResult.finished [] 0 0
    | LinesResult.ok ls =>
        let r := scanLines matcher stop ls 0 0
        GrepResult.finished r.1 r.2.1 r.2.2

/-- `grep_matches_all_lines` (src/utils/grep.rs): per-line emissions are
suppressed (`on_match` returns false) and the `on_end` callback emits the
path-only record exactly when `matches == total`. Returns whether the record
is emitted. -/
def grepMatchesAllLinesEmits (reader : Reader) (matcher : Matcher) : Bool :=
  match genericGrep (fun _ => false) reader matcher with
  | GrepResult.panicked => false
  | GrepResult.finished _ total mcount => mcount == total

/-- `grep_matches_once` (src/utils/grep.rs): each match is displayed and
`on_match` returns true, stopping after the first. -/
def grepMatchesOnceCalls (reader : Reader) (matcher : Matcher) : GrepResult :=
  genericGrep (fun _ => true) reader matcher

/-- `grep_count` (src/utils/grep.rs): the `on_end` callback displays
`DisplayContext::new(matches, "", [])` when `matches > 0`. -/
def grepCountEmission (reader : Reader) (matcher : Matcher) : Option DisplayContext :=
  match genericGrep (fun _ => false) reader matcher with
  | GrepResult.panicked => none
  | GrepResult.finished _ _ mcount =>
      if mcount > 0 then some (ctxNew mcount [] []) else none

/-- A record or match-separator emission of `_grep_with_context`. -/
inductive CtxEvent
  | record (ctx : DisplayContext)
  | matchSep
deriving DecidableEq

/-- `BTreeMap::entry(k).or_insert_with(..)` where the closure builds the value
from the popped front of the line queue (src/utils/grep.rs lines 93-102):
when the key is already present the closure does not run, so nothing is
popped. The `pop_front().unwrap()` cannot fail in the source because the loop
runs at most `lqueue.len()` times, each popping once. -/
def entryOrInsertPop (output : List (Nat × DisplayContext)) (key : Nat)
    (mk : Str → DisplayContext) (q : List Str) :
    List (Nat × DisplayContext) × List Str :=
  if (output.lookup key).isSome then (output, q)
  else ((key, mk (q.headD [])) :: output, q.tail)

/-- `BTreeMap::entry(k).or_insert_with(..)` with a value not touching the
queue (the after-context insert, src/utils/grep.rs lines 87-90). -/
def entryOrInsert (output : List (Nat × DisplayContext)) (key : Nat)
    (ctx : DisplayContext) : List (Nat × DisplayContext) :=
  if (output.lookup key).isSome then output else (key, ctx) :: output

/-- `BTreeMap::insert`: replaces any existing value. -/
def mapInsert (output : List (Nat × DisplayContext)) (key : Nat)
    (ctx : DisplayContext) : List (Nat × DisplayContext) :=
  (key, ctx) :: output.filter (fun kv => kv.1 != key)

/-- The before-context loop of `_grep_with_context`:
`for i in 0..cmp::min(before, lqueue.len())`, inserting at key `lno - i - 1`
a record whose text is popped from the front of the queue. `i` is the current
index; the second argument counts the remaining iterations. -/
def beforeLoop (lno : Nat) (i : Nat) : Nat → List (Nat × DisplayContext) → List Str →
    List (Nat × DisplayContext) × List Str
  | 0, output, q => (output, q)
  | rem + 1, output, q =>
      let r := entryOrInsertPop output (lno - i - 1)
        (fun text =>
          { lno := lno - i - 1, line := text, needle := [], lnoSep := strBytes "-" }) q
      beforeLoop lno (i + 1) rem r.1 r.2

/-- The per-line state of `_grep_with_context`: the ring buffer of previous
lines (front = oldest), the line counter, the pending after-context count and
the output map. -/
structure CtxState where
  lqueue : List Str
  lno : Nat
  pcount : Int
  output : List (Nat × DisplayContext)

/-- One iteration of the line loop of `_grep_with_context`
(src/utils/grep.rs lines 82-109): emit pending after-context, then on a match
emit before-context from the queue and the match record, then maintain the
queue of the last `before` lines. -/
def ctxStep (matcher : Matcher) (before after : Nat) (st : CtxState) (line : Str) :
    CtxState :=
  let lno := st.lno + 1
  let needle := matcher line (MatcherOptions.Exact usizeMax)
  let oc : List (Nat × DisplayContext) × Int :=
    if st.pcount > 0 then
      (entryOrInsert st.output lno
        { lno := lno, line := line, needle := [], lnoSep := strBytes "-" },
       st.pcount - 1)
    else (st.output, st.pcount)
  let r : List (Nat × DisplayContext) × List Str × Int :=
    match needle with
    | some ns =>
        let b := beforeLoop lno 0 (min before st.lqueue.length) oc.1 st.lqueue
        (mapInsert b.1 lno (ctxNew lno line ns), b.2, (after : Int))
    | none => (oc.1, st.lqueue, oc.2)
  let lq := r.2.1 ++ [line]
  let lq := if lq.length = before + 1 then lq.tail else lq
  { lqueue := lq, lno := lno, pcount := r.2.2, output := r.1 }

/-- Ascending insertion for the `BTreeMap` iteration order (keys are unique
line numbers). -/
def insertSortedByKey (kv : Nat × DisplayContext) :
    List (Nat × DisplayContext) → List (Nat × DisplayContext)
  | [] => [kv]
  | x :: xs => if kv.1 ≤ x.1 then kv :: x :: xs else x :: insertSortedByKey kv xs

/-- `BTreeMap` iteration order: ascending keys. -/
def sortByKey (l : List (Nat × DisplayContext)) : List (Nat × DisplayContext) :=
  l.foldr insertSortedByKey []

/-- The final emission loop of `_grep_with_context` (src/utils/grep.rs lines
111-118): a match separator between records whose line numbers differ by more
than one. -/
def emitLoop : Nat → List (Nat × DisplayContext) → List CtxEvent
  | _, [] => []
  | plno, kv :: rest =>
      (if plno > 0 ∧ kv.1 - plno > 1 then [CtxEvent.matchSep] else []) ++
        (CtxEvent.record kv.2 :: emitLoop kv.1 rest)

/-- `_grep_with_context` from src/utils/grep.rs: fuzzy pre-filter, the line
loop, then the sorted emission; `none` models a panic from `lines()` and an
`Err` from `lines()` is logged and emits nothing. -/
def grepWithContext (before after : Nat) (reader : Reader) (matcher : Matcher) :
    Option (List CtxEvent) :=
  if (fuzzyGrep reader matcher).isNone then some []
  else
    match reader.linesResult with
    | LinesResult.panic => none
    | LinesResult.err => some []
    | LinesResult.ok ls =>
        let st := ls.foldl (ctxStep matcher before after)
          { lqueue := [], lno := 0, pcount := 0, output := [] }
        some (emitLoop 0 (sortByKey st.output))

/-- The iterator state of `MappedLines` (src/utils/mapped.rs): the current
line range and the scan position. -/
structure MappedState where
  lineStart : Nat
  lineEnd : Nat
  pos : Nat

/-- `MappedLines::advance` (src/utils/mapped.rs lines 76-93): find the next
`\n` with `memchr`, step `pos` past it and past one `\r` that follows it, and
pull `line.end` back by one when the byte at `line.end` — the newline
position itself, or the buffer length — is a `\r` within `1..len`. -/
def mappedAdvance (m : Str) (st : MappedState) : MappedState :=
  let start := st.pos
  if start ≥ m.length then { st with lineStart := start }
  else
    let e := match (m.drop start).findIdx? (· == 10) with
      | some p => start + p
      | none => m.length
    let pos := e + 1
    let pos := if pos < m.length ∧ m.getD pos 0 = 13 then pos + 1 else pos
    let e := if 1 ≤ e ∧ e < m.length ∧ m.getD e 0 = 13 then e - 1 else e
    { lineStart := start, lineEnd := e, pos := pos }

/-- `MappedLines::next`: advance, then yield the byte span
`mmap[line.start..line.end]` (the subsequent UTF-8 decoding — lossy per-byte
on failure — does not change the span's extent). -/
def mappedNext (m : Str) (st : MappedState) : Option Str × MappedState :=
  let st := mappedAdvance m st
  if st.lineStart ≥ m.length then (none, st)
  else (some ((m.drop st.lineStart).take (st.lineEnd - st.lineStart)), st)

/-- Iterate `MappedLines::next` to exhaustion; `pos` grows by at least one per
yielded line, so `m.length + 1` steps suffice. -/
def mappedLinesAux (m : Str) : Nat → MappedState → List Str
  | 0, _ => []
  | fuel + 1, st =>
      match mappedNext m st with
      | (none, _) => []
      | (some l, st2) => l :: mappedLinesAux m fuel st2

/-- The full line stream of the memory-mapped reader over contents `m`. -/
def mappedLines (m : Str) : List Str :=
  mappedLinesAux m (m.length + 1) { lineStart := 0, lineEnd := 0, pos := 0 }

/-- Wrapping `usize` subtraction (release-profile semantics). -/
def wsub (a b : Nat) : Nat := (a + (usizeMax + 1) - b) % (usizeMax + 1)

/-- The `while line.get(offset..needle.start) == None { offset += 1 }` loop of
`rich_format_one` (src/utils/display.rs line 187): slide the left cut to the
right until it is a valid split point. Fuel-driven; the caller passes enough
fuel to reach `needle.start`. -/
def leftSlide (line : Str) (ns : Nat) : Nat → Nat → Nat
  | offset, 0 => offset
  | offset, fuel + 1 =>
      if (sliceOpt line offset ns).isSome then offset
      else leftSlide line ns (offset + 1) fuel

/-- The `while line.get(needle.end..offset) == None { offset -= 1 }` loop of
`rich_format_one` (src/utils/display.rs line 203): slide the right cut to the
left until it is a valid split point. -/
def rightSlide (line : Str) (ne : Nat) : Nat → Nat → Nat
  | offset, 0 => offset
  | offset, fuel + 1 =>
      if (sliceOpt line ne offset).isSome then offset
      else rightSlide line ne (offset - 1) fuel

/-- The margin computation of `Format::rich_format_one` (src/utils/display.rs
lines 167-178): width is clamped to the needle length; equality yields the
`usize::MAX` sentinel margins. -/
def richMargins (width0 : Nat) (line : Str) (needle : Match) : Nat × Nat :=
  let needleLen := needle.stop - needle.start
  let width := max width0 needleLen
  if width = needleLen then (usizeMax, usizeMax)
  else if needle.start < width / 2 then
    let lm := min needle.start ((width - needleLen) / 2)
    (lm, width - needleLen - lm)
  else
    let rm := min (line.length - needle.stop) ((width - needleLen) / 2)
    (width - needleLen - rm, rm)

/-- The left cut of `rich_format_one` (src/utils/display.rs lines 179-194):
the start offset of the emitted slice and the `"[...] "` marker when the left
side is truncated. -/
def richStartCut (line : Str) (needle : Match) (leftMargin : Nat) : Nat × Str :=
  if leftMargin = usizeMax then (needle.start, [])
  else if needle.start > leftMargin then
    let pfx := strBytes "[...] "
    let offset := needle.start - leftMargin + pfx.length
    if offset ≥ needle.start then (0, [])
    else (leftSlide line needle.start offset (needle.start - offset), pfx)
  else (0, [])

/-- The right cut of `rich_format_one` (src/utils/display.rs lines 195-210):
the end offset of the emitted slice and the `" [...]"` marker when the right
side is truncated. The one subtraction that can underflow in the source
(`needle.end + right_margin - suffix.len()`) uses wrapping `usize`
semantics. -/
def richStopCut (line : Str) (needle : Match) (rightMargin : Nat) : Nat × Str :=
  if rightMargin = usizeMax then (needle.stop, [])
  else if line.length - needle.stop > rightMargin then
    let sfx := strBytes " [...]"
    let offset := wsub (needle.stop + rightMargin) sfx.length
    if needle.stop ≥ offset then (line.length, [])
    else (rightSlide line needle.stop offset offset, sfx)
  else (line.length, [])

/-- The margin and truncation-offset computation of `Format::rich_format_one`
(src/utils/display.rs lines 163-210): the final left cut, the truncation
marker before, the final right cut, and the truncation marker after. -/
def richOffsets (width0 : Nat) (line : Str) (needle : Match) : Nat × Str × Nat × Str :=
  let margins := richMargins width0 line needle
  let sp := richStartCut line needle margins.1
  let es := richStopCut line needle margins.2
  (sp.1, sp.2, es.1, es.2)

/-- `Format::rich_format_one` assembled (uncoloured; colours only wrap the
same slices in escape sequences): truncation marker, the slice before the
match, the match, the slice after, truncation marker. `none` models a panic
of one of the three slicings at lines 211-213 of src/utils/display.rs. -/
def richFormatOne (width0 : Nat) (line : Str) (needle : Match) : Option Str :=
  let o := richOffsets width0 line needle
  (sliceOpt line o.1 needle.start).bind (fun before =>
    (sliceOpt line needle.start needle.stop).bind (fun what =>
      (sliceOpt line needle.stop o.2.2.1).map (fun after =>
        o.2.1 ++ before ++ what ++ after ++ o.2.2.2)))

/-- The matcher for the literal pattern `x` (byte 0x78), not inverted: a
single-literal instantiation of the external regex engine. -/
def matcherX : Matcher := mkMatcher (byteShortestMatch 120) (byteFindIter 120) false

/-- The matcher for the literal pattern `x`, inverted — the configuration
`-L x` produces (files-without-match implies invert). -/
def matcherXInv : Matcher := mkMatcher (byteShortestMatch 120) (byteFindIter 120) true

/-- The matcher for the literal pattern `c` (byte 0x63), not inverted. -/
def matcherC : Matcher := mkMatcher (byteShortestMatch 99) (byteFindIter 99) false

/-- The S1 gitignore of the spec: root `/r`, lines `foo` and `!bar/foo`. -/
def s1Patterns : Patterns :=
  patternsNew (strBytes "/r") [strBytes "foo", strBytes "!bar/foo"]

/-- The S2 pattern `foo/**/bar` compiled under root `/r`. -/
def s2Patterns : Patterns := patternsNew (strBytes "/r") [strBytes "foo/**/bar"]

/-- A line of ten two-byte `é` characters, an ASCII `X`, and ten more `é`. -/
def c9Line : Str := strBytes "ééééééééééXéééééééééé"

/-- C1: the spec says the generic scan short-circuits to `(total=0, matches=0)`
exactly when the fuzzy call returns `None`, and that a reader whose `map()` is
unsupported still has its lines matched line by line. The code instead
short-circuits whenever `map()` fails: over a buffered-fallback/stdin reader
whose single line matches the pattern `x`, `generic_grep` calls `on_end(0, 0)`
and never calls `on_match`, although `Exact` matching of that line succeeds. -/
theorem c1_unmapped_reader_short_circuits :
    genericGrep (fun _ => false) (unmappedReader [strBytes "x"]) matcherX =
      GrepResult.finished [] 0 0 ∧
    matcherX (strBytes "x") (MatcherOptions.Exact usizeMax) =
      some [⟨0, 1⟩] := by
  constructor
  · rfl
  · rfl

/-- C2: the spec says the all-lines-match strategy emits only when
`matches == total` and `total > 0`, hence `-L x` emits nothing for a file
whose every line contains `x`, and a scan ending with `total = 0` emits
nothing. The code has no `total > 0` guard: on a mapped one-line file `x`
under the inverted matcher, the fuzzy pre-filter returns `None`, the scan
short-circuits with `(0, 0)`, and the strategy emits the path record. -/
theorem c2_all_lines_match_emits_on_zero_total :
    grepMatchesAllLinesEmits (mappedReader (strBytes "x\n") [strBytes "x"]) matcherXInv =
      true ∧
    byteFindIter 120 (strBytes "x") = [⟨0, 1⟩] := by
  constructor
  · rfl
  · rfl

/-- C4: the spec says each before-context record carries that line's own text
for every `B`. With `before = 2` on the lines `a`, `b`, `c` and a matcher
matching only `c`, the code pops the before-context texts from the front
(oldest end) of the ring buffer, so the record numbered 1 carries `b` and the
record numbered 2 carries `a` — the texts are transposed. -/
theorem c4_before_context_transposed :
    grepWithContext 2 0 (mappedReader (strBytes "a\nb\nc")
        [strBytes "a", strBytes "b", strBytes "c"]) matcherC =
      some [CtxEvent.record ⟨1, strBytes "b", [], strBytes "-"⟩,
            CtxEvent.record ⟨2, strBytes "a", [], strBytes "-"⟩,
            CtxEvent.record ⟨3, strBytes "c", [⟨0, 1⟩], strBytes ":"⟩] ∧
    strBytes "a" ≠ strBytes "b" := by
  constructor
  · rfl
  · decide

/-- C5: the spec says each mapped line is the span up to the next `\n` with
one trailing `\r` stripped, so `a\r\nb` yields `a` first. The code inspects
`mmap[line.end]` — the newline position itself — so the strip never fires and
the first yielded line is `a\r`. -/
theorem c5_mapped_lines_keep_carriage_return :
    mappedLines (strBytes "a\r\nb") = [strBytes "a\r", strBytes "b"] ∧
    strBytes "a\r" ≠ strBytes "a" := by
  constructor
  · rfl
  · decide

/-- C6: the spec says a line containing `/` in a non-terminal position (and
not starting `**/` nor containing `/**/`) is root-anchored, naming `a/b/` in
particular. The code additionally requires the line not to end with `/`, so
`a/b/` compiles unanchored — to `Suffix("/a/b")` prefixed with `**/` — and the
directory `/r/x/a/b`, below the root, is excluded by it. -/
theorem c6_trailing_slash_not_anchored :
    parseLine (strBytes "a/b/") =
      some (PatternType.Suffix (strBytes "/a/b"), false, true) ∧
    Patterns.isExcluded noGlobEngine (patternsNew (strBytes "/r") [strBytes "a/b/"])
      (strBytes "/r/x/a/b") true = some true := by
  constructor
  · rfl
  · rfl

/-- C8: the spec says the Zero reader returns an empty `map()` and an empty
line stream, so scanning an empty file with an inverted matcher terminates
with `total = 0`. The code's `Zero::lines()` is `panic!("not supported")`:
the inverted fuzzy call on the empty buffer succeeds, the scan proceeds to
`lines()`, and the scan panics. -/
theorem c8_zero_reader_lines_panics :
    zeroReader.mapResult = some [] ∧
    (fuzzyGrep zeroReader matcherXInv).isSome = true ∧
    genericGrep (fun _ => false) zeroReader matcherXInv = GrepResult.panicked := by
  refine ⟨rfl, rfl, rfl⟩

/-- C3 counterexample: the claim says `foo/**/bar` under root `/r` matches
`/r/foo/bar`. It compiles to `DStarTextDStarText("foo/", "/bar")` and the
scan of `/r/foo/bar` is not excluded — the length guard
`len(path) > len(first) + len(second)` fails on the root-stripped
`/foo/bar`. -/
theorem c3_counterexample_foo_bar :
    parseLine (strBytes "foo/**/bar") =
      some (PatternType.DStarTextDStarText (strBytes "foo/") (strBytes "/bar"),
        false, false) ∧
    Patterns.isExcluded noGlobEngine s2Patterns (strBytes "/r/foo/bar") false =
      some false := by
  constructor
  · rfl
  · rfl

/-- C10 counterexample: the claim says every arm returns a boolean without
panicking on every UTF-8 path. The `/abc*` line compiles to the `Prefix`
shape, and matching it against `/aaé` slices the path at byte offset 4 —
inside the two-byte `é` — which panics (`none`). -/
theorem c10_counterexample_prefix_panics :
    patternNew (strBytes "/abc*") = PatternType.PrefixOf (strBytes "/abc") ∧
    patternMatches noGlobEngine (patternNew (strBytes "/abc*")) (strBytes "/aaé") =
      none := by
  constructor
  · rfl
  · rfl

/-- C7: `is_excluded` returns true iff no whitelist set matches and some
blacklist set matches; with the S1 gitignore (`foo` and `!bar/foo` at root
`/r`) the files `/r/foo` and `/r/sub/foo` are excluded while `/r/bar/foo` is
not. -/
theorem c7_is_excluded_semantics :
    (∀ (g : Str → Str → Bool) (ps : Patterns) (path : Str) (d : Bool),
      Patterns.isExcluded g ps path d = some true ↔
        (anyOpt ps.whitelist (fun s => s.matchesPath g path d) = some false ∧
         anyOpt ps.blacklist (fun s => s.matchesPath g path d) = some true)) ∧
    Patterns.isExcluded noGlobEngine s1Patterns (strBytes "/r/foo") false = some true ∧
    Patterns.isExcluded noGlobEngine s1Patterns (strBytes "/r/sub/foo") false = some true ∧
    Patterns.isExcluded noGlobEngine s1Patterns (strBytes "/r/bar/foo") false = some false := by
  refine ⟨?_, rfl, rfl, rfl⟩
  intro g ps path d
  unfold Patterns.isExcluded
  cases hw : anyOpt ps.whitelist (fun s => s.matchesPath g path d) with
  | none => simp
  | some w => cases w <;> simp

theorem isCharBoundary_zero (s : Str) : isCharBoundary s 0 = true := rfl

theorem isCharBoundary_length (s : Str) : isCharBoundary s s.length = true := by
  unfold isCharBoundary
  split
  · rfl
  · cases hg : s.get? s.length with
    | none => simp
    | some b =>
        have : s.length ≤ s.length := le_refl _
        rw [List.get?_eq_none.mpr this] at hg
        cases hg

theorem sliceOpt_isSome_iff {s : Str} {a b : Nat} :
    (sliceOpt s a b).isSome = true ↔
      a ≤ b ∧ b ≤ s.length ∧ isCharBoundary s a = true ∧ isCharBoundary s b = true := by
  unfold sliceOpt
  split <;> simp_all

theorem sliceOpt_some_val {s : Str} {a b : Nat}
    (h1 : a ≤ b) (h2 : b ≤ s.length) (h3 : isCharBoundary s a = true)
    (h4 : isCharBoundary s b = true) :
    sliceOpt s a b = some ((s.drop a).take (b - a)) := by
  unfold sliceOpt
  rw [if_pos ⟨h1, h2, h3, h4⟩]

theorem isCharBoundary_of_ascii {s : Str} {i : Nat} (ha : asciiOnly s = true)
    (hi : i ≤ s.length) : isCharBoundary s i = true := by
  unfold isCharBoundary
  split
  · rfl
  · cases hg : s.get? i with
    | none =>
        have hlen : s.length ≤ i := List.get?_eq_none.mp hg
        have hieq : i = s.length := by omega
        simp [hieq]
    | some b =>
        have hmem : b ∈ s := List.get?_mem hg
        have hb : b < 0x80 := by
          have := (List.all_eq_true.mp ha) b hmem
          exact of_decide_eq_true this
        have hnb : ¬(0x80 ≤ b) := by omega
        simp [hnb]

theorem asciiOnly_drop {s : Str} (n : Nat) (ha : asciiOnly s = true) :
    asciiOnly (s.drop n) = true := by
  unfold asciiOnly at *
  rw [List.all_eq_true] at *
  intro x hx
  exact ha x (List.mem_of_mem_drop hx)

theorem sliceOpt_drop_of_ascii {s : Str} {a : Nat} (ha : asciiOnly s = true)
    (hle : a ≤ s.length) : sliceOpt s a s.length = some (s.drop a) := by
  rw [sliceOpt_some_val hle (le_refl _) (isCharBoundary_of_ascii ha hle)
    (isCharBoundary_length s)]
  congr 1
  exact List.take_of_length_le (le_of_eq (List.length_drop a s))

theorem anyOpt_isSome {α : Type} {l : List α} {f : α → Option Bool}
    (h : ∀ x ∈ l, (f x).isSome = true) : (anyOpt l f).isSome = true := by
  induction l with
  | nil => rfl
  | cons x xs ih =>
      unfold anyOpt
      cases hf : f x with
      | none =>
          have := h x (List.mem_cons_self x xs)
          rw [hf] at this
          cases this
      | some b =>
          cases b
          · simpa using ih (fun y hy => h y (List.mem_cons_of_mem x hy))
          · rfl

theorem firstOccurAux_some {n s : Str} {i d : Nat}
    (h : firstOccurAux n s i = some d) :
    ∃ k, d = i + k ∧ n.isPrefixOf (s.drop k) = true := by
  induction s generalizing i with
  | nil =>
      unfold firstOccurAux at h
      split at h
      · exact ⟨0, by simp_all, by simp_all⟩
      · cases h
  | cons b rest ih =>
      unfold firstOccurAux at h
      split at h
      · exact ⟨0, by simp_all, by simp_all⟩
      · obtain ⟨k, hk, hp⟩ := ih h
        exact ⟨k + 1, by omega, by simpa using hp⟩

theorem firstOccurAux_min {n s : Str} {k i : Nat}
    (h : n.isPrefixOf (s.drop k) = true) :
    ∃ d, firstOccurAux n s i = some d ∧ d ≤ i + k := by
  induction s generalizing i k with
  | nil =>
      rw [List.drop_nil] at h
      exact ⟨i, by simp [firstOccurAux, h], by omega⟩
  | cons b rest ih =>
      unfold firstOccurAux
      split
      · exact ⟨i, rfl, by omega⟩
      · rename_i hcond
        cases k with
        | zero =>
            rw [List.drop_zero] at h
            exact absurd h (by simpa using hcond)
        | succ k2 =>
            obtain ⟨d, hd, hle⟩ := ih (k := k2) (i := i + 1) (by simpa using h)
            exact ⟨d, hd, by omega⟩

theorem findInString_some {h n : Str} {pos : Nat}
    (hf : findInString h n = some pos) :
    n.isPrefixOf (h.drop pos) = true ∧ pos < h.length := by
  unfold findInString at hf
  split at hf
  · cases hf
  · cases hq : firstOccur? h n with
    | none => rw [hq] at hf; cases hf
    | some d =>
        simp only [hq] at hf
        split at hf
        · cases hf
        · rename_i hlt
          injection hf with hdp
          obtain ⟨k, hk, hp⟩ := firstOccurAux_some hq
          have hkpos : k = pos := by omega
          subst hkpos
          exact ⟨hp, by omega⟩

theorem findInString_min {h n : Str} {i : Nat}
    (hp : n.isPrefixOf (h.drop i) = true) (hi : i < h.length) :
    ∃ pos, findInString h n = some pos ∧ pos ≤ i := by
  have hnlen : n.length ≤ h.length := by
    have := (List.isPrefixOf_iff_prefix.mp hp).length_le
    rw [List.length_drop] at this
    omega
  obtain ⟨d, hd, hle⟩ := firstOccurAux_min (i := 0) hp
  refine ⟨d, ?_, by omega⟩
  unfold findInString
  rw [if_neg (by omega)]
  unfold firstOccur?
  simp only [hd]
  rw [if_neg (by omega)]

theorem dstar_matches_iff (g : Str → Str → Bool) (hh tt path : Str)
    (ha : asciiOnly path = true) :
    patternMatches g (PatternType.DStarTextDStarText hh tt) path = some true ↔
      (path.length > hh.length + tt.length ∧ tt <:+ path ∧
       ∃ i, hh.isPrefixOf (path.drop i) = true ∧
         i + hh.length + tt.length < path.length) := by
  simp only [patternMatches]
  by_cases hlen : path.length > hh.length + tt.length
  · rw [if_pos hlen]
    cases hf : findInString path hh with
    | none =>
        dsimp only
        constructor
        · intro hx; cases hx
        · rintro ⟨-, -, i, hp, hroom⟩
          obtain ⟨pos, hpos, -⟩ := findInString_min hp (by omega)
          rw [hpos] at hf
          cases hf
    | some pos =>
        obtain ⟨hpre, hposlt⟩ := findInString_some hf
        have hbound : pos + hh.length ≤ path.length := by
          have := (List.isPrefixOf_iff_prefix.mp hpre).length_le
          rw [List.length_drop] at this
          omega
        dsimp only
        rw [sliceOpt_drop_of_ascii ha hbound]
        simp only [Option.some_bind]
        have hrlen : (path.drop (pos + hh.length)).length =
            path.length - (pos + hh.length) := List.length_drop _ _
        by_cases hgt : (path.drop (pos + hh.length)).length > tt.length
        · rw [if_pos hgt]
          rw [sliceOpt_drop_of_ascii (asciiOnly_drop _ ha) (by omega)]
          simp only [Option.map_some']
          constructor
          · intro heq
            have heq2 : (path.drop (pos + hh.length)).drop
                ((path.drop (pos + hh.length)).length - tt.length) = tt := by
              have := Option.some.inj heq
              exact of_decide_eq_true this
            refine ⟨hlen, ?_, pos, hpre, by omega⟩
            have h1 : tt <:+ path.drop (pos + hh.length) :=
              heq2 ▸ List.drop_suffix _ _
            exact h1.trans (List.drop_suffix _ _)
          · rintro ⟨-, hsuf, i, hp, hroom⟩
            obtain ⟨pos2, hf2, hle2⟩ := findInString_min hp (by omega)
            rw [hf] at hf2
            have hpos2 : pos ≤ i := by
              have := Option.some.inj hf2
              omega
            have h1 : tt.length ≤ (path.drop (pos + hh.length)).length := by omega
            have h2 : tt <:+ path.drop (pos + hh.length) :=
              List.suffix_of_suffix_length_le hsuf (List.drop_suffix _ _) h1
            have h3 := List.suffix_iff_eq_drop.mp h2
            rw [show ((path.drop (pos + hh.length)).drop
              ((path.drop (pos + hh.length)).length - tt.length) = tt) from h3.symm]
            simp
        · rw [if_neg hgt]
          constructor
          · intro hx; cases hx
          · rintro ⟨-, -, i, hp, hroom⟩
            obtain ⟨pos2, hf2, hle2⟩ := findInString_min hp (by omega)
            rw [hf] at hf2
            have hpos2 : pos ≤ i := by
              have := Option.some.inj hf2
              omega
            omega
  · rw [if_neg hlen]
    constructor
    · intro hx; cases hx
    · rintro ⟨hx, -, -⟩
      exact absurd hx hlen

/-- C3 (amended): `foo/**/bar` under root `/r` compiles to
`DStarTextDStarText("foo/", "/bar")`; it matches `/r/foo/x/bar` and
`/r/foo/x/y/bar` and does not match `/r/foo/bar`, `/r/bar` or
`/r/foo/bar/baz`. In general `DStarTextDStarText(h, t)` matches a
root-stripped path iff the path is longer than `len(h) + len(t)`, the path
ends with `t`, and `h` occurs at some offset `i` with
`i + len(h) + len(t) < len(path)` (equivalently, the first occurrence of `h`
leaves a remainder longer than `t`). -/
theorem c3_amended_dstar :
    (Patterns.isExcluded noGlobEngine s2Patterns (strBytes "/r/foo/x/bar") false =
        some true ∧
      Patterns.isExcluded noGlobEngine s2Patterns (strBytes "/r/foo/x/y/bar") false =
        some true ∧
      Patterns.isExcluded noGlobEngine s2Patterns (strBytes "/r/bar") false =
        some false ∧
      Patterns.isExcluded noGlobEngine s2Patterns (strBytes "/r/foo/bar/baz") false =
        some false ∧
      Patterns.isExcluded noGlobEngine s2Patterns (strBytes "/r/foo/bar") false =
        some false) ∧
    (∀ (g : Str → Str → Bool) (hh tt path : Str), asciiOnly path = true →
      (patternMatches g (PatternType.DStarTextDStarText hh tt) path = some true ↔
        (path.length > hh.length + tt.length ∧ tt <:+ path ∧
         ∃ i, hh.isPrefixOf (path.drop i) = true ∧
           i + hh.length + tt.length < path.length))) :=
  ⟨⟨rfl, rfl, rfl, rfl, rfl⟩,
   fun g hh tt path ha => dstar_matches_iff g hh tt path ha⟩

/-- C3 witness: the amended characterization applied to the compiled shape
`DStarTextDStarText("foo/", "/bar")` and the root-stripped path
`/foo/x/bar`. -/
theorem c3_amended_dstar_witness :
    patternMatches noGlobEngine
        (PatternType.DStarTextDStarText (strBytes "foo/") (strBytes "/bar"))
        (strBytes "/foo/x/bar") = some true ↔
      ((strBytes "/foo/x/bar").length >
          (strBytes "foo/").length + (strBytes "/bar").length ∧
        strBytes "/bar" <:+ strBytes "/foo/x/bar" ∧
        ∃ i, (strBytes "foo/").isPrefixOf ((strBytes "/foo/x/bar").drop i) = true ∧
          i + (strBytes "foo/").length + (strBytes "/bar").length <
            (strBytes "/foo/x/bar").length) :=
  c3_amended_dstar.2 noGlobEngine (strBytes "foo/") (strBytes "/bar")
    (strBytes "/foo/x/bar") (by decide)

theorem bind_isSome {α β : Type} {o : Option α} {f : α → Option β}
    (h1 : o.isSome = true) (h2 : ∀ a, o = some a → (f a).isSome = true) :
    (o.bind f).isSome = true := by
  cases o with
  | none => cases h1
  | some a => exact h2 a rfl

theorem memrchr_lt {b : Nat} {s : Str} {pos : Nat}
    (h : memrchr b s = some pos) : pos < s.length := by
  unfold memrchr at h
  cases hq : findIdxAux (· == b) s.reverse 0 with
  | none => rw [hq] at h; cases h
  | some j =>
      rw [hq] at h
      have hj : pos = s.length - 1 - j := (Option.some.inj h).symm
      have hs : s.reverse ≠ [] := by
        intro he
        rw [he] at hq
        simp [findIdxAux] at hq
      have hlen : 0 < s.length := by
        cases s with
        | nil => simp at hs
        | cons x xs => simp
      omega

theorem patternMatches_isSome_of_ascii (g : Str → Str → Bool) (pt : PatternType)
    {path : Str} (ha : asciiOnly path = true) :
    (patternMatches g pt path).isSome = true := by
  cases pt with
  | Any => rfl
  | Exact s => rfl
  | Glob gp => rfl
  | Suffix s => rfl
  | PrefixOf s =>
      simp only [patternMatches]
      split
      · rename_i hgt
        rw [sliceOpt_some_val (Nat.zero_le _) (le_of_lt hgt) (isCharBoundary_zero _)
          (isCharBoundary_of_ascii ha (le_of_lt hgt))]
        rfl
      · rfl
  | StarSuffix s =>
      simp only [patternMatches]
      split
      · split
        · rfl
        · rename_i hgt hslash
          rw [sliceOpt_drop_of_ascii ha (by omega)]
          rfl
      · rfl
  | PrefixStar s =>
      simp only [patternMatches]
      cases hm : memrchr 47 path with
      | none => rfl
      | some pos =>
          dsimp only
          have hlt := memrchr_lt hm
          rw [sliceOpt_drop_of_ascii ha (by omega)]
          simp only [Option.some_bind]
          split
          · rename_i hgt
            rw [sliceOpt_some_val (Nat.zero_le _) (le_of_lt hgt) (isCharBoundary_zero _)
              (isCharBoundary_of_ascii (asciiOnly_drop _ ha) (le_of_lt hgt))]
            rfl
          · rfl
  | DStarTextDStarText f sec =>
      simp only [patternMatches]
      split
      · cases hf : findInString path f with
        | none => rfl
        | some pos =>
            dsimp only
            obtain ⟨hpre, hposlt⟩ := findInString_some hf
            have hbound : pos + f.length ≤ path.length := by
              have := (List.isPrefixOf_iff_prefix.mp hpre).length_le
              rw [List.length_drop] at this
              omega
            rw [sliceOpt_drop_of_ascii ha hbound]
            simp only [Option.some_bind]
            split
            · rename_i hgt
              rw [sliceOpt_drop_of_ascii (asciiOnly_drop _ ha) (by omega)]
              rfl
            · rfl
      · rfl

theorem patternSet_matches_isSome_of_ascii (g : Str → Str → Bool) (ps : PatternSet)
    {path : Str} (ha : asciiOnly path = true) (d : Bool) :
    (ps.matchesPath g path d).isSome = true := by
  have hinner : ∀ t : Str, asciiOnly t = true →
      ((if d then anyOpt ps.dirOnly (fun p => patternMatches g p t)
        else some false).bind
        (fun m => if m then some true
         else anyOpt ps.allPats (fun p => patternMatches g p t))).isSome = true := by
    intro t hat
    apply bind_isSome
    · split
      · exact anyOpt_isSome (fun x _ => patternMatches_isSome_of_ascii g x hat)
      · rfl
    · intro m _
      split
      · rfl
      · exact anyOpt_isSome (fun x _ => patternMatches_isSome_of_ascii g x hat)
  simp only [PatternSet.matchesPath]
  by_cases hroot : path.length ≥ ps.root.length
  · rw [if_pos hroot]
    rw [sliceOpt_some_val (Nat.zero_le _) hroot (isCharBoundary_zero _)
      (isCharBoundary_of_ascii ha hroot)]
    simp only [Option.map_some', Option.some_bind]
    by_cases ht : ((path.drop 0).take (ps.root.length - 0)) = ps.root
    · rw [if_pos ht]
      exact hinner _ (asciiOnly_drop _ ha)
    · rw [if_neg ht]
      exact hinner _ ha
  · rw [if_neg hroot]
    simp only [Option.some_bind]
    exact hinner _ ha

/-- C10 (amended): on paths whose sliced byte offsets are char boundaries —
in particular on all-ASCII paths — `Pattern::matches` and
`PatternSet::matches` return a boolean without panicking for every compiled
shape (the glob arm delegating to the external engine); on other UTF-8 paths
the `Prefix`, `PrefixStar`, `StarSuffix` and `DStarTextDStarText` arms and
the root strip of `PatternSet::matches` slice by byte index without a
boundary guard and panic when the index falls inside a multi-byte sequence —
only the `Suffix` arm guards its split with `is_char_boundary`. -/
theorem c10_amended_ascii_total :
    ∀ (g : Str → Str → Bool) (pt : PatternType) (ps : PatternSet) (path : Str)
      (d : Bool), asciiOnly path = true →
      (patternMatches g pt path).isSome = true ∧
      (ps.matchesPath g path d).isSome = true :=
  fun g pt ps _path d ha =>
    ⟨patternMatches_isSome_of_ascii g pt ha,
     patternSet_matches_isSome_of_ascii g ps ha d⟩

/-- C10 witness: the amended totality applied to the compiled `Prefix` shape
and an ASCII path. -/
theorem c10_amended_ascii_total_witness :
    (patternMatches noGlobEngine (PatternType.PrefixOf (strBytes "/abc"))
      (strBytes "/abc/x")).isSome = true ∧
    ((patternSetNew (strBytes "/r")).matchesPath noGlobEngine (strBytes "/abc/x")
      false).isSome = true :=
  c10_amended_ascii_total noGlobEngine (PatternType.PrefixOf (strBytes "/abc"))
    (patternSetNew (strBytes "/r")) (strBytes "/abc/x") false (by decide)

theorem leftSlide_isSome {line : Str} {ns : Nat} (hns : isCharBoundary line ns = true)
    (hlen : ns ≤ line.length) :
    ∀ fuel offset, offset ≤ ns → ns - offset ≤ fuel →
      (sliceOpt line (leftSlide line ns offset fuel) ns).isSome = true := by
  intro fuel
  induction fuel with
  | zero =>
      intro offset hle hf
      have hoff : offset = ns := by omega
      subst hoff
      simp only [leftSlide]
      rw [sliceOpt_isSome_iff]
      exact ⟨le_refl _, hlen, hns, hns⟩
  | succ f ih =>
      intro offset hle hf
      simp only [leftSlide]
      split
      · rename_i hsome
        exact hsome
      · rename_i hnone
        rcases Nat.lt_or_ge offset ns with hlt | hge
        · exact ih (offset + 1) (by omega) (by omega)
        · exfalso
          have hoff : offset = ns := by omega
          subst hoff
          apply hnone
          rw [sliceOpt_isSome_iff]
          exact ⟨le_refl _, hlen, hns, hns⟩

theorem rightSlide_isSome {line : Str} {ne : Nat} (hne : isCharBoundary line ne = true)
    (hlen : ne ≤ line.length) :
    ∀ fuel offset, ne ≤ offset → offset - ne ≤ fuel →
      (sliceOpt line ne (rightSlide line ne offset fuel)).isSome = true := by
  intro fuel
  induction fuel with
  | zero =>
      intro offset hle hf
      have hoff : offset = ne := by omega
      subst hoff
      simp only [rightSlide]
      rw [sliceOpt_isSome_iff]
      exact ⟨le_refl _, hlen, hne, hne⟩
  | succ f ih =>
      intro offset hle hf
      simp only [rightSlide]
      split
      · rename_i hsome
        exact hsome
      · rename_i hnone
        rcases Nat.lt_or_ge ne offset with hlt | hge
        · exact ih (offset - 1) (by omega) (by omega)
        · exfalso
          have hoff : offset = ne := by omega
          subst hoff
          apply hnone
          rw [sliceOpt_isSome_iff]
          exact ⟨le_refl _, hlen, hne, hne⟩

theorem richStartCut_spec {line : Str} {needle : Match} (lm : Nat)
    (h3 : isCharBoundary line needle.start = true)
    (hns : needle.start ≤ line.length) :
    isCharBoundary line (richStartCut line needle lm).1 = true ∧
      (richStartCut line needle lm).1 ≤ needle.start := by
  simp only [richStartCut]
  split
  · exact ⟨h3, le_refl _⟩
  · split
    · split
      · exact ⟨isCharBoundary_zero _, Nat.zero_le _⟩
      · rename_i hgt hlt
        have hres := leftSlide_isSome h3 hns
          (needle.start - (needle.start - lm + (strBytes "[...] ").length))
          (needle.start - lm + (strBytes "[...] ").length) (by omega) (by omega)
        rw [sliceOpt_isSome_iff] at hres
        exact ⟨hres.2.2.1, hres.1⟩
    · exact ⟨isCharBoundary_zero _, Nat.zero_le _⟩

theorem richStopCut_spec {line : Str} {needle : Match} (rm : Nat)
    (h4 : isCharBoundary line needle.stop = true)
    (hne : needle.stop ≤ line.length) :
    isCharBoundary line (richStopCut line needle rm).1 = true ∧
      needle.stop ≤ (richStopCut line needle rm).1 ∧
      (richStopCut line needle rm).1 ≤ line.length := by
  simp only [richStopCut]
  split
  · exact ⟨h4, le_refl _, hne⟩
  · split
    · split
      · exact ⟨isCharBoundary_length _, hne, le_refl _⟩
      · rename_i hgt hlt
        have hres := rightSlide_isSome h4 hne
          (wsub (needle.stop + rm) (strBytes " [...]").length)
          (wsub (needle.stop + rm) (strBytes " [...]").length) (by omega)
          (Nat.sub_le _ _)
        rw [sliceOpt_isSome_iff] at hres
        dsimp only
        exact ⟨hres.2.2.2, hres.1, hres.2.1⟩
    · exact ⟨isCharBoundary_length _, hne, le_refl _⟩

/-- C9: in the rich single-match layout, every truncation cut lands on a UTF-8
char boundary: for every width, line, and match range whose ends lie on char
boundaries (match ranges come from the regex engine over the line), the left
and right cut offsets computed by `rich_format_one` are char boundaries and
the assembled formatting — slicing `line[start..needle.start]`,
`line[needle.start..needle.end]` and `line[needle.end..end]` — completes
without panicking. -/
theorem c9_rich_format_one_safe (width0 : Nat) (line : Str) (needle : Match)
    (h1 : needle.start ≤ needle.stop) (h2 : needle.stop ≤ line.length)
    (h3 : isCharBoundary line needle.start = true)
    (h4 : isCharBoundary line needle.stop = true) :
    isCharBoundary line (richOffsets width0 line needle).1 = true ∧
    isCharBoundary line (richOffsets width0 line needle).2.2.1 = true ∧
    (richFormatOne width0 line needle).isSome = true := by
  have hns : needle.start ≤ line.length := le_trans h1 h2
  obtain ⟨hb1, hle1⟩ := richStartCut_spec (richMargins width0 line needle).1 h3 hns
  obtain ⟨hb2, hge2, hle2⟩ := richStopCut_spec (richMargins width0 line needle).2 h4 h2
  refine ⟨?_, ?_, ?_⟩
  · simp only [richOffsets]
    exact hb1
  · simp only [richOffsets]
    exact hb2
  · simp only [richFormatOne, richOffsets]
    apply bind_isSome
    · rw [sliceOpt_isSome_iff]
      exact ⟨hle1, hns, hb1, h3⟩
    · intro a _
      apply bind_isSome
      · rw [sliceOpt_isSome_iff]
        exact ⟨h1, h2, h3, h4⟩
      · intro b _
        have hs : (sliceOpt line needle.stop
            (richStopCut line needle (richMargins width0 line needle).2).1).isSome =
            true := by
          rw [sliceOpt_isSome_iff]
          exact ⟨hge2, hle2, h4, hb2⟩
        obtain ⟨v, hv⟩ := Option.isSome_iff_exists.mp hs
        rw [hv]
        rfl

/-- C9 witness: the layout at width 18 over a line of ten `é`, an `X`, and
ten `é`, with the match on the `X` — both sides truncate, and both cuts land
on char boundaries. -/
theorem c9_rich_format_one_safe_witness :
    isCharBoundary c9Line (richOffsets 18 c9Line ⟨20, 21⟩).1 = true ∧
    isCharBoundary c9Line (richOffsets 18 c9Line ⟨20, 21⟩).2.2.1 = true ∧
    (richFormatOne 18 c9Line ⟨20, 21⟩).isSome = true :=
  c9_rich_format_one_safe 18 c9Line ⟨20, 21⟩ (by decide) (by decide) (by decide)
    (by decide)

end Tgrep
